import Mathlib

/-!
Verification development for the PR6_DCPS forest-fire repository.

The code under analysis is the Next.js API route
`src/apps/PR6_DCPS/src/app/api/forest-fire/route.ts` (the current variant)
and the earlier variant of the same route kept as `src/unnamed/part_000`.
The route exposes three handlers over a module-level `sessions` Map:

* `POST`   — validates presence of `field`/`params`/`coords`, reconstructs a
  dense cell grid from the sparse client field plus a client-supplied
  coordinate-to-index mapping, and stores a fresh session;
* `GET`    — looks the session up and returns a server-sent-event stream whose
  `start` callback runs a timed simulation loop (wait, compute a generation,
  emit a delta when non-empty, emit an `end` event and stop when the flammable
  set becomes empty), with a `finally` that closes the stream and deletes the
  session, and a `cancel` callback that aborts and deletes the session;
* `DELETE` — aborts the session and removes it from the map.

Modelling conventions:

* The JavaScript string key `x,y` (built by template string from integer
  coordinates) is modelled by the pair `(x, y) : Int × Int`; the formatting is
  injective on integer pairs, so nothing is lost.
* The JavaScript `Map` objects (the client `coords` mapping and the session
  registry) are modelled by a lookup function `Int × Int → Option Nat` and by
  a list of session ids respectively.
* `Math.floor(width / 2)` on an integral width is `Int.fdiv width 2`, and the
  JavaScript test `width % 2 === 0` agrees with `width % 2 = 0` on `Int`
  (both test evenness).
* The engine functions `calculateNextGeneration` / `findFlammableCells` /
  `generateCoordMap` live in `algorithm/algorithm.ts`, which is outside the
  excerpt; the streaming loop treats the engine as a black box, so the loop is
  modelled over an arbitrary sequence of engine results (the updated-cells map
  and the flammable-cells count of each tick), plus an `err` alternative for a
  tick that throws (caught by the `catch` of the loop).
* Real time is abstracted to checkpoints: during iteration `k` of the loop the
  abort signal is sampled at the loop-head check (checkpoint `2*k`) and inside
  `send` after the wait (checkpoint `2*k + 1`). An abort firing during the
  wait of iteration `k` is an `aborted` schedule that is false at `2*k` and
  true at `2*k + 1`.
* `fullField.cells[index] = cell` is modelled by `List.set`; the claims below
  only exercise it at indices below the list length, where the two agree
  (JavaScript would lengthen the array on an out-of-range write).
-/

/-! ## Cell and field data model (types/types.ts as used by route.ts) -/

/-- Cell state: `T` (Tree), `B` (Burning), `E` (Empty). -/
inductive CellState where
  | T
  | B
  | E
deriving DecidableEq, Repr

/-- A grid cell as sent by the client and stored in `Field.cells`. -/
structure Cell where
  x : Int
  y : Int
  state : CellState
  burnTime : Int
deriving DecidableEq, Repr

/-- The client-supplied `coords` mapping (a JS object turned into a `Map` by
`new Map(Object.entries(coords))`): from a coordinate key to a position in the
cells array. -/
def CoordIndex : Type := Int × Int → Option Nat

/-- Simulation parameters; only `updateInterval` is read by the route. -/
structure ForestFireParams where
  updateInterval : Int
deriving DecidableEq, Repr

/-! ## Bounding-box arithmetic of the POST reconstruction

`route.ts` lines 43-48:
`halfWidth = Math.floor(field.width / 2)`, `startX = -halfWidth`,
`endX = halfWidth + (field.width % 2 === 0 ? 0 : 1)`, and the same for `y`
with the height. -/

/-- `Math.floor(n / 2)` for an integral `n`. -/
def half (n : Int) : Int := Int.fdiv n 2

/-- Lower bound of the box along one axis: `-Math.floor(n / 2)`. -/
def boxLo (n : Int) : Int := -half n

/-- One past the upper bound of the box along one axis:
`Math.floor(n / 2) + (n % 2 === 0 ? 0 : 1)`. -/
def boxHi (n : Int) : Int := half n + (if n % 2 = 0 then 0 else 1)

theorem boxHi_sub_boxLo (n : Int) : boxHi n - boxLo n = n := by
  unfold boxHi boxLo half
  rw [Int.fdiv_eq_ediv n (by norm_num)]
  by_cases hpar : n % 2 = 0 <;> simp [hpar] <;> omega

/-- Row width of the box as a natural number; equals `n.toNat`. -/
def axisLen (n : Int) : Nat := (boxHi n - boxLo n).toNat

theorem axisLen_eq_toNat (n : Int) : axisLen n = n.toNat := by
  unfold axisLen
  rw [boxHi_sub_boxLo]

/-! ## Dense reconstruction (POST lines 50-65) -/

/-- The default cell created by the initialization loops:
`x`, `y`, state code `T`, `burnTime` 0. -/
def defaultTreeCell (x y : Int) : Cell := { x := x, y := y, state := .T, burnTime := 0 }

/-- The ascending enumeration `for (v = lo; v < hi; v++)`. -/
def intRange (lo hi : Int) : List Int :=
  (List.range (hi - lo).toNat).map (fun i : Nat => lo + (i : Int))

/-- The cells pushed by the nested initialization loops of POST: outer loop on
`y` from `startY` to `endY`, inner loop on `x` from `startX` to `endX`, each
pushing a default Tree cell. -/
def initialCells (w h : Int) : List Cell :=
  (intRange (boxLo h) (boxHi h)).flatMap (fun y =>
    (intRange (boxLo w) (boxHi w)).map (fun x => defaultTreeCell x y))

/-- One overlay step (POST lines 58-64): look the key of the supplied cell up
in the client `coords` map; when present, write the cell at that index, else
do nothing. -/
def overlayStep (coordMap : CoordIndex) (acc : List Cell) (c : Cell) : List Cell :=
  match coordMap (c.x, c.y) with
  | some i => acc.set i c
  | none => acc

/-- The overlay loop `for (const cell of field.cells) ...` of POST. -/
def overlayCells (coordMap : CoordIndex) (base : List Cell) (supplied : List Cell) : List Cell :=
  supplied.foldl (overlayStep coordMap) base

/-- The full dense reconstruction performed by POST: initialize every box
coordinate as a default Tree cell, then overlay the supplied cells through the
client `coords` mapping. -/
def reconstructDense (w h : Int) (supplied : List Cell) (coordMap : CoordIndex) : List Cell :=
  overlayCells coordMap (initialCells w h) supplied

theorem intRange_length (lo hi : Int) : (intRange lo hi).length = (hi - lo).toNat := by
  simp only [intRange, List.length_map, List.length_range]

theorem initialCells_length (w h : Int) :
    (initialCells w h).length = axisLen h * axisLen w := by
  unfold initialCells
  rw [List.length_flatMap]
  have hrep : (intRange (boxLo h) (boxHi h)).map
      (List.length ∘ fun y => (intRange (boxLo w) (boxHi w)).map (fun x => defaultTreeCell x y))
      = List.replicate (axisLen h) (axisLen w) := by
    apply List.eq_replicate_iff.mpr
    constructor
    · rw [List.length_map, intRange_length]; rfl
    · intro b hb
      rcases List.mem_map.mp hb with ⟨y, _, hb2⟩
      rw [← hb2]
      show ((intRange (boxLo w) (boxHi w)).map (fun x => defaultTreeCell x y)).length = axisLen w
      rw [List.length_map, intRange_length]
      rfl
  rw [hrep, List.sum_replicate, smul_eq_mul]

/-! ## Positions and the canonical row-major index

The initialization loops enumerate the box row-major: the cell pushed at
position `i` has coordinate
`(boxLo w + i % axisLen w, boxLo h + i / axisLen w)`, that is, position
`(y + halfHeight) * width + (x + halfWidth)` holds coordinate `(x, y)`. -/

/-- Number of cells of the dense grid. -/
def gridN (w h : Int) : Nat := axisLen h * axisLen w

/-- The coordinate enumerated at position `i` by the initialization loops. -/
def coordOfIndex (w h : Int) (i : Nat) : Int × Int :=
  (boxLo w + ((i % axisLen w : Nat) : Int), boxLo h + ((i / axisLen w : Nat) : Int))

/-- Membership of a coordinate in the bounding box of the reconstruction. -/
def inBox (w h : Int) (p : Int × Int) : Prop :=
  boxLo w ≤ p.1 ∧ p.1 < boxHi w ∧ boxLo h ≤ p.2 ∧ p.2 < boxHi h

instance (w h : Int) (p : Int × Int) : Decidable (inBox w h p) :=
  inferInstanceAs (Decidable (boxLo w ≤ p.1 ∧ p.1 < boxHi w ∧ boxLo h ≤ p.2 ∧ p.2 < boxHi h))

/-- Row-major position of an in-box coordinate:
`(y + halfHeight) * width + (x + halfWidth)`. -/
def canonicalPos (w h : Int) (p : Int × Int) : Nat :=
  ((p.2 - boxLo h) * w + (p.1 - boxLo w)).toNat

/-- The canonical coordinate-to-index mapping for the dense grid: defined on
exactly the box coordinates, sending each to its row-major position. This is
the mapping the reconstruction loops of POST realize, and the shape of the
`coords` object a well-behaved client supplies. -/
def canonicalIndex (w h : Int) : CoordIndex := fun p =>
  if inBox w h p then some (canonicalPos w h p) else none

theorem toNat_linear (a b wZ : Int) (W : Nat) (ha : 0 ≤ a) (hb : 0 ≤ b)
    (hwW : (W : Int) = wZ) : (b * wZ + a).toNat = b.toNat * W + a.toNat := by
  subst hwW
  rcases Int.eq_ofNat_of_zero_le hb with ⟨B, rfl⟩
  rcases Int.eq_ofNat_of_zero_le ha with ⟨A, rfl⟩
  rw [← Nat.cast_mul, ← Nat.cast_add, Int.toNat_natCast, Int.toNat_natCast, Int.toNat_natCast]

theorem rowMajor_lt (A B W H : Nat) (hA : A < W) (hB : B < H) : B * W + A < H * W := by
  have h1 : B * W + A < (B + 1) * W := by rw [Nat.succ_mul]; omega
  have h2 : (B + 1) * W ≤ H * W := Nat.mul_le_mul_right W (by omega)
  omega

theorem rowMajor_mod (A B W : Nat) (hA : A < W) : (B * W + A) % W = A := by
  rw [Nat.mul_comm B W, Nat.mul_add_mod, Nat.mod_eq_of_lt hA]

theorem rowMajor_div (A B W : Nat) (hA : A < W) : (B * W + A) / W = B := by
  rw [Nat.mul_comm B W, Nat.mul_add_div (by omega), Nat.div_eq_of_lt hA, Nat.add_zero]

theorem canonicalPos_eq_nat (w h : Int) (hw : 0 < w) (p : Int × Int)
    (hx : boxLo w ≤ p.1) (hy : boxLo h ≤ p.2) :
    canonicalPos w h p = (p.2 - boxLo h).toNat * axisLen w + (p.1 - boxLo w).toNat := by
  have hW := axisLen_eq_toNat w
  have hwW : ((axisLen w : Nat) : Int) = w := by omega
  exact toNat_linear (p.1 - boxLo w) (p.2 - boxLo h) w (axisLen w) (by omega) (by omega) hwW

theorem canonicalPos_lt (w h : Int) (hw : 0 < w) (hh : 0 < h)
    (p : Int × Int) (hp : inBox w h p) : canonicalPos w h p < gridN w h := by
  obtain ⟨h1, h2, h3, h4⟩ := hp
  have hbw := boxHi_sub_boxLo w
  have hbh := boxHi_sub_boxLo h
  rw [canonicalPos_eq_nat w h hw p h1 h3]
  have hA : (p.1 - boxLo w).toNat < axisLen w := by
    have := axisLen_eq_toNat w
    omega
  have hB : (p.2 - boxLo h).toNat < axisLen h := by
    have := axisLen_eq_toNat h
    omega
  exact rowMajor_lt _ _ _ _ hA hB

theorem coordOfIndex_canonicalPos (w h : Int) (hw : 0 < w) (hh : 0 < h)
    (p : Int × Int) (hp : inBox w h p) : coordOfIndex w h (canonicalPos w h p) = p := by
  obtain ⟨h1, h2, h3, h4⟩ := hp
  have hbw := boxHi_sub_boxLo w
  have hbh := boxHi_sub_boxLo h
  rw [canonicalPos_eq_nat w h hw p h1 h3]
  have hA : (p.1 - boxLo w).toNat < axisLen w := by
    have := axisLen_eq_toNat w
    omega
  unfold coordOfIndex
  rw [rowMajor_mod _ _ _ hA, rowMajor_div _ _ _ hA]
  rw [Prod.ext_iff]
  constructor
  · show boxLo w + ((p.1 - boxLo w).toNat : Int) = p.1
    omega
  · show boxLo h + ((p.2 - boxLo h).toNat : Int) = p.2
    omega

theorem coordOfIndex_inBox (w h : Int) (hw : 0 < w) (hh : 0 < h)
    (i : Nat) (hi : i < gridN w h) : inBox w h (coordOfIndex w h i) := by
  have hbw := boxHi_sub_boxLo w
  have hbh := boxHi_sub_boxLo h
  have hW := axisLen_eq_toNat w
  have hH := axisLen_eq_toNat h
  have hWpos : 0 < axisLen w := by omega
  have hr : i % axisLen w < axisLen w := Nat.mod_lt _ hWpos
  have hq : i / axisLen w < axisLen h := by
    apply Nat.div_lt_of_lt_mul
    have hg : axisLen h * axisLen w = axisLen w * axisLen h := Nat.mul_comm _ _
    unfold gridN at hi
    omega
  unfold coordOfIndex inBox
  generalize hrv : i % axisLen w = r at hr
  generalize hqv : i / axisLen w = q at hq
  refine ⟨by omega, by omega, by omega, by omega⟩

theorem canonicalPos_coordOfIndex (w h : Int) (hw : 0 < w) (hh : 0 < h)
    (i : Nat) (hi : i < gridN w h) : canonicalPos w h (coordOfIndex w h i) = i := by
  have hW := axisLen_eq_toNat w
  have hwW : ((axisLen w : Nat) : Int) = w := by omega
  have hqr : axisLen w * (i / axisLen w) + i % axisLen w = i := Nat.div_add_mod i (axisLen w)
  unfold canonicalPos coordOfIndex
  generalize hqv : i / axisLen w = q at hqr ⊢
  generalize hrv : i % axisLen w = r at hqr ⊢
  have e1 : boxLo h + (q : Int) - boxLo h = (q : Int) := by ring
  have e2 : boxLo w + (r : Int) - boxLo w = (r : Int) := by ring
  rw [e1, e2, ← hwW, ← Nat.cast_mul, ← Nat.cast_add, Int.toNat_natCast, Nat.mul_comm]
  exact hqr

theorem canonicalIndex_coordOfIndex (w h : Int) (hw : 0 < w) (hh : 0 < h)
    (i : Nat) (hi : i < gridN w h) :
    canonicalIndex w h (coordOfIndex w h i) = some i := by
  unfold canonicalIndex
  rw [if_pos (coordOfIndex_inBox w h hw hh i hi), canonicalPos_coordOfIndex w h hw hh i hi]

theorem canonicalIndex_eq_some (w h : Int) (p : Int × Int) (i : Nat)
    (hci : canonicalIndex w h p = some i) : inBox w h p ∧ canonicalPos w h p = i := by
  unfold canonicalIndex at hci
  by_cases hp : inBox w h p
  · rw [if_pos hp] at hci
    exact ⟨hp, Option.some_injective _ hci⟩
  · rw [if_neg hp] at hci
    exact absurd hci (Option.noConfusion)

theorem canonicalIndex_out (w h : Int) (p : Int × Int) (hp : ¬ inBox w h p) :
    canonicalIndex w h p = none := by
  unfold canonicalIndex
  rw [if_neg hp]

theorem canonicalIndex_inBox (w h : Int) (p : Int × Int) (hp : inBox w h p) :
    canonicalIndex w h p = some (canonicalPos w h p) := by
  unfold canonicalIndex
  rw [if_pos hp]

/-! ## The cell stored at each position of the reconstructed grid -/

theorem flatMap_getElem? {α β : Type} (W : Nat) (hW : 0 < W) (f : α → List β)
    (hf : ∀ a, (f a).length = W) (l : List α) (i : Nat) :
    (l.flatMap f)[i]? = l[i / W]?.bind (fun a => (f a)[i % W]?) := by
  induction l generalizing i with
  | nil => simp
  | cons a l ih =>
    rw [List.flatMap_cons, List.getElem?_append]
    by_cases hi : i < W
    · rw [if_pos (by rw [hf]; exact hi), Nat.div_eq_of_lt hi, Nat.mod_eq_of_lt hi]
      simp
    · rw [if_neg (by rw [hf]; exact hi), hf]
      have hWi : W ≤ i := Nat.le_of_not_lt hi
      rw [ih (i - W), Nat.div_eq_sub_div hW hWi, Nat.mod_eq_sub_mod hWi]
      simp

theorem intRange_getElem? (lo hi : Int) (j : Nat) (hj : j < (hi - lo).toNat) :
    (intRange lo hi)[j]? = some (lo + (j : Int)) := by
  unfold intRange
  rw [List.getElem?_map, List.getElem?_range hj]
  rfl

theorem initialCells_getElem? (w h : Int) (hw : 0 < w) (hh : 0 < h)
    (i : Nat) (hi : i < gridN w h) :
    (initialCells w h)[i]? =
      some (defaultTreeCell (coordOfIndex w h i).1 (coordOfIndex w h i).2) := by
  have hW := axisLen_eq_toNat w
  have hH := axisLen_eq_toNat h
  have hWpos : 0 < axisLen w := by omega
  have hrow : ∀ y : Int,
      ((intRange (boxLo w) (boxHi w)).map (fun x => defaultTreeCell x y)).length = axisLen w := by
    intro y
    rw [List.length_map, intRange_length]
    rfl
  unfold initialCells
  rw [flatMap_getElem? (axisLen w) hWpos _ hrow]
  have hq : i / axisLen w < axisLen h := by
    apply Nat.div_lt_of_lt_mul
    have hg : axisLen h * axisLen w = axisLen w * axisLen h := Nat.mul_comm _ _
    unfold gridN at hi
    omega
  have hr : i % axisLen w < axisLen w := Nat.mod_lt _ hWpos
  rw [intRange_getElem? (boxLo h) (boxHi h) (i / axisLen w) (by unfold axisLen at hq; exact hq)]
  show ((intRange (boxLo w) (boxHi w)).map
      (fun x => defaultTreeCell x (boxLo h + ((i / axisLen w : Nat) : Int))))[i % axisLen w]? = _
  rw [List.getElem?_map,
    intRange_getElem? (boxLo w) (boxHi w) (i % axisLen w) (by unfold axisLen at hr; exact hr)]
  rfl

theorem overlayStep_length (coordMap : CoordIndex) (acc : List Cell) (c : Cell) :
    (overlayStep coordMap acc c).length = acc.length := by
  unfold overlayStep
  cases coordMap (c.x, c.y) with
  | none => rfl
  | some i => exact List.length_set acc i c

theorem overlayCells_length (coordMap : CoordIndex) (base supplied : List Cell) :
    (overlayCells coordMap base supplied).length = base.length := by
  induction supplied generalizing base with
  | nil => rfl
  | cons c rest ih =>
    show (overlayCells coordMap (overlayStep coordMap base c) rest).length = base.length
    rw [ih (overlayStep coordMap base c), overlayStep_length]

theorem reconstructDense_length (w h : Int) (supplied : List Cell) (coordMap : CoordIndex) :
    (reconstructDense w h supplied coordMap).length = gridN w h := by
  unfold reconstructDense
  rw [overlayCells_length, initialCells_length]
  rfl

/-- The last supplied cell whose key the `coords` mapping sends to position
`i`; `none` when no supplied cell lands on `i`. Later list entries win,
mirroring the in-order overwriting of the overlay loop. -/
def lastHit (coordMap : CoordIndex) (supplied : List Cell) (i : Nat) : Option Cell :=
  match supplied with
  | [] => none
  | c :: rest =>
    match lastHit coordMap rest i with
    | some c2 => some c2
    | none => if coordMap (c.x, c.y) = some i then some c else none

theorem lastHit_cons (coordMap : CoordIndex) (c : Cell) (rest : List Cell) (i : Nat) :
    lastHit coordMap (c :: rest) i =
      match lastHit coordMap rest i with
      | some c2 => some c2
      | none => if coordMap (c.x, c.y) = some i then some c else none := rfl

theorem overlayCells_getElem? (coordMap : CoordIndex) (supplied : List Cell)
    (base : List Cell) (i : Nat)
    (hin : ∀ c ∈ supplied, ∀ j, coordMap (c.x, c.y) = some j → j < base.length) :
    (overlayCells coordMap base supplied)[i]? =
      match lastHit coordMap supplied i with
      | some c => if i < base.length then some c else none
      | none => base[i]? := by
  induction supplied generalizing base with
  | nil =>
    show base[i]? = base[i]?
    rfl
  | cons c rest ih =>
    have hin' : ∀ c2 ∈ rest, ∀ j, coordMap (c2.x, c2.y) = some j →
        j < (overlayStep coordMap base c).length := by
      intro c2 hc2 j hj
      rw [overlayStep_length]
      exact hin c2 (List.mem_cons_of_mem c hc2) j hj
    show (overlayCells coordMap (overlayStep coordMap base c) rest)[i]? = _
    rw [ih (overlayStep coordMap base c) hin', overlayStep_length, lastHit_cons]
    cases hrest : lastHit coordMap rest i with
    | some c2 => rfl
    | none =>
      show (overlayStep coordMap base c)[i]? = _
      unfold overlayStep
      cases hkey : coordMap (c.x, c.y) with
      | none => simp
      | some j =>
        have hj : j < base.length := hin c (List.mem_cons_self c rest) j hkey
        by_cases hji : j = i
        · subst hji
          simp [List.getElem?_set_self, hj]
        · rw [List.getElem?_set_ne hji]
          have hne : ¬ ((some j : Option Nat) = some i) := by
            intro hcontra
            exact hji (Option.some_injective _ hcontra)
          rw [if_neg hne]

/-- The cell the reconstruction stores at position `i`: the last supplied cell
whose key the `coords` mapping sends to `i`, else the default Tree cell of the
coordinate enumerated at `i`. -/
def gridCellAt (w h : Int) (coordMap : CoordIndex) (supplied : List Cell) (i : Nat) : Cell :=
  match lastHit coordMap supplied i with
  | some c => c
  | none => defaultTreeCell (coordOfIndex w h i).1 (coordOfIndex w h i).2

theorem canonical_hin (w h : Int) (hw : 0 < w) (hh : 0 < h) (supplied : List Cell) :
    ∀ c ∈ supplied, ∀ j, canonicalIndex w h (c.x, c.y) = some j → j < gridN w h := by
  intro c _ j hj
  obtain ⟨hbox, hpos⟩ := canonicalIndex_eq_some w h (c.x, c.y) j hj
  rw [← hpos]
  exact canonicalPos_lt w h hw hh _ hbox

theorem reconstructDense_getElem? (w h : Int) (hw : 0 < w) (hh : 0 < h)
    (supplied : List Cell) (coordMap : CoordIndex)
    (hin : ∀ c ∈ supplied, ∀ j, coordMap (c.x, c.y) = some j → j < gridN w h)
    (i : Nat) (hi : i < gridN w h) :
    (reconstructDense w h supplied coordMap)[i]? =
      some (gridCellAt w h coordMap supplied i) := by
  have hlen : (initialCells w h).length = gridN w h := initialCells_length w h
  unfold reconstructDense gridCellAt
  rw [overlayCells_getElem? coordMap supplied (initialCells w h) i
    (by rw [hlen]; exact hin)]
  cases hl : lastHit coordMap supplied i with
  | some c =>
    show (if i < (initialCells w h).length then some c else none) = some c
    rw [if_pos (by rw [hlen]; exact hi)]
  | none =>
    exact initialCells_getElem? w h hw hh i hi

theorem reconstructDense_eq_map (w h : Int) (hw : 0 < w) (hh : 0 < h)
    (supplied : List Cell) (coordMap : CoordIndex)
    (hin : ∀ c ∈ supplied, ∀ j, coordMap (c.x, c.y) = some j → j < gridN w h) :
    reconstructDense w h supplied coordMap =
      (List.range (gridN w h)).map (gridCellAt w h coordMap supplied) := by
  apply List.ext_getElem?
  intro i
  by_cases hi : i < gridN w h
  · rw [reconstructDense_getElem? w h hw hh supplied coordMap hin i hi,
      List.getElem?_map, List.getElem?_range hi]
    rfl
  · have h1 : (reconstructDense w h supplied coordMap).length ≤ i := by
      rw [reconstructDense_length]
      omega
    have h2 : ((List.range (gridN w h)).map (gridCellAt w h coordMap supplied)).length ≤ i := by
      rw [List.length_map, List.length_range]
      omega
    rw [List.getElem?_eq_none h1, List.getElem?_eq_none h2]

theorem lastHit_mem (coordMap : CoordIndex) (supplied : List Cell) (i : Nat) (c : Cell)
    (hl : lastHit coordMap supplied i = some c) :
    c ∈ supplied ∧ coordMap (c.x, c.y) = some i := by
  induction supplied with
  | nil => exact absurd hl (by simp [lastHit])
  | cons c0 rest ih =>
    rw [lastHit_cons] at hl
    cases hrest : lastHit coordMap rest i with
    | some c2 =>
      rw [hrest] at hl
      have hc2 : c2 = c := Option.some_injective _ hl
      subst hc2
      obtain ⟨hmem, hk⟩ := ih hrest
      exact ⟨List.mem_cons_of_mem c0 hmem, hk⟩
    | none =>
      rw [hrest] at hl
      by_cases hk : coordMap (c0.x, c0.y) = some i
      · rw [if_pos hk] at hl
        have hc0 : c0 = c := Option.some_injective _ hl
        subst hc0
        exact ⟨List.mem_cons_self c0 rest, hk⟩
      · rw [if_neg hk] at hl
        exact absurd hl (by simp)

/-- The last supplied cell carrying coordinate `p`; later entries win, which
is the "last write wins" reading of the in-order overlay. -/
def lastWrite (supplied : List Cell) (p : Int × Int) : Option Cell :=
  match supplied with
  | [] => none
  | c :: rest =>
    match lastWrite rest p with
    | some c2 => some c2
    | none => if (c.x, c.y) = p then some c else none

theorem lastWrite_cons (c : Cell) (rest : List Cell) (p : Int × Int) :
    lastWrite (c :: rest) p =
      match lastWrite rest p with
      | some c2 => some c2
      | none => if (c.x, c.y) = p then some c else none := rfl

theorem lastWrite_mem (supplied : List Cell) (p : Int × Int) (c : Cell)
    (hl : lastWrite supplied p = some c) : c ∈ supplied ∧ (c.x, c.y) = p := by
  induction supplied with
  | nil => exact absurd hl (by simp [lastWrite])
  | cons c0 rest ih =>
    rw [lastWrite_cons] at hl
    cases hrest : lastWrite rest p with
    | some c2 =>
      rw [hrest] at hl
      have hc2 : c2 = c := Option.some_injective _ hl
      subst hc2
      obtain ⟨hmem, hk⟩ := ih hrest
      exact ⟨List.mem_cons_of_mem c0 hmem, hk⟩
    | none =>
      rw [hrest] at hl
      by_cases hk : (c0.x, c0.y) = p
      · rw [if_pos hk] at hl
        have hc0 : c0 = c := Option.some_injective _ hl
        subst hc0
        exact ⟨List.mem_cons_self c0 rest, hk⟩
      · rw [if_neg hk] at hl
        exact absurd hl (by simp)

theorem lastHit_eq_lastWrite (w h : Int) (hw : 0 < w) (hh : 0 < h)
    (supplied : List Cell) (hbox : ∀ c ∈ supplied, inBox w h (c.x, c.y))
    (i : Nat) (hi : i < gridN w h) :
    lastHit (canonicalIndex w h) supplied i = lastWrite supplied (coordOfIndex w h i) := by
  induction supplied with
  | nil => rfl
  | cons c rest ih =>
    have hbox' : ∀ c2 ∈ rest, inBox w h (c2.x, c2.y) := by
      intro c2 hc2
      exact hbox c2 (List.mem_cons_of_mem c hc2)
    rw [lastHit_cons, lastWrite_cons, ih hbox']
    cases lastWrite rest (coordOfIndex w h i) with
    | some c2 => rfl
    | none =>
      have hcb : inBox w h (c.x, c.y) := hbox c (List.mem_cons_self c rest)
      have hiff : canonicalIndex w h (c.x, c.y) = some i ↔ (c.x, c.y) = coordOfIndex w h i := by
        constructor
        · intro hci
          obtain ⟨hbx, hpos⟩ := canonicalIndex_eq_some w h (c.x, c.y) i hci
          rw [← hpos, coordOfIndex_canonicalPos w h hw hh _ hbx]
        · intro hco
          rw [hco]
          exact canonicalIndex_coordOfIndex w h hw hh i hi
      by_cases hcond : (c.x, c.y) = coordOfIndex w h i
      · rw [if_pos hcond, if_pos (hiff.mpr hcond)]
      · rw [if_neg hcond, if_neg (fun hc => hcond (hiff.mp hc))]

theorem gridCellAt_coord (w h : Int) (hw : 0 < w) (hh : 0 < h)
    (supplied : List Cell) (i : Nat) :
    ((gridCellAt w h (canonicalIndex w h) supplied i).x,
     (gridCellAt w h (canonicalIndex w h) supplied i).y) = coordOfIndex w h i := by
  unfold gridCellAt
  cases hl : lastHit (canonicalIndex w h) supplied i with
  | some c =>
    obtain ⟨_, hk⟩ := lastHit_mem (canonicalIndex w h) supplied i c hl
    obtain ⟨hbx, hpos⟩ := canonicalIndex_eq_some w h (c.x, c.y) i hk
    rw [← hpos, coordOfIndex_canonicalPos w h hw hh _ hbx]
  | none => rfl

theorem reconstructDense_coords (w h : Int) (hw : 0 < w) (hh : 0 < h)
    (supplied : List Cell) :
    (reconstructDense w h supplied (canonicalIndex w h)).map (fun c => (c.x, c.y)) =
      (List.range (gridN w h)).map (coordOfIndex w h) := by
  rw [reconstructDense_eq_map w h hw hh supplied (canonicalIndex w h)
    (canonical_hin w h hw hh supplied), List.map_map]
  apply List.map_congr_left
  intro i hi
  exact gridCellAt_coord w h hw hh supplied i

theorem reconstructDense_coord_count (w h : Int) (hw : 0 < w) (hh : 0 < h)
    (supplied : List Cell) (p : Int × Int) (hp : inBox w h p) :
    (reconstructDense w h supplied (canonicalIndex w h)).countP
      (fun c => decide ((c.x, c.y) = p)) = 1 := by
  have hmap : ((reconstructDense w h supplied (canonicalIndex w h)).map
      (fun c => (c.x, c.y))).countP (fun q => decide (q = p)) =
      (reconstructDense w h supplied (canonicalIndex w h)).countP
        (fun c => decide ((c.x, c.y) = p)) := by
    rw [List.countP_map]
    rfl
  rw [← hmap, reconstructDense_coords w h hw hh supplied]
  have hnodup : ((List.range (gridN w h)).map (coordOfIndex w h)).Nodup := by
    apply List.Nodup.map_on _ (List.nodup_range _)
    intro a ha b hb hab
    have ha2 : a < gridN w h := List.mem_range.mp ha
    have hb2 : b < gridN w h := List.mem_range.mp hb
    rw [← canonicalPos_coordOfIndex w h hw hh a ha2, ← canonicalPos_coordOfIndex w h hw hh b hb2,
      hab]
  have hmem : p ∈ (List.range (gridN w h)).map (coordOfIndex w h) := by
    apply List.mem_map.mpr
    exact ⟨canonicalPos w h p, List.mem_range.mpr (canonicalPos_lt w h hw hh p hp),
      coordOfIndex_canonicalPos w h hw hh p hp⟩
  exact List.count_eq_one_of_mem hnodup hmem

theorem gridCellAt_eq_of_hit (w h : Int) (coordMap : CoordIndex) (supplied : List Cell)
    (i : Nat) (c : Cell) (hl : lastHit coordMap supplied i = some c) :
    gridCellAt w h coordMap supplied i = c := by
  unfold gridCellAt
  rw [hl]

theorem gridCellAt_eq_of_miss (w h : Int) (coordMap : CoordIndex) (supplied : List Cell)
    (i : Nat) (hl : lastHit coordMap supplied i = none) :
    gridCellAt w h coordMap supplied i =
      defaultTreeCell (coordOfIndex w h i).1 (coordOfIndex w h i).2 := by
  unfold gridCellAt
  rw [hl]

theorem reconstructDense_not_supplied (w h : Int) (hw : 0 < w) (hh : 0 < h)
    (supplied : List Cell) (c : Cell)
    (hc : c ∈ reconstructDense w h supplied (canonicalIndex w h))
    (hns : ∀ s ∈ supplied, (s.x, s.y) ≠ (c.x, c.y)) :
    c.state = CellState.T ∧ c.burnTime = 0 := by
  rw [reconstructDense_eq_map w h hw hh supplied (canonicalIndex w h)
    (canonical_hin w h hw hh supplied)] at hc
  obtain ⟨i, hiR, hgc⟩ := List.mem_map.mp hc
  cases hl : lastHit (canonicalIndex w h) supplied i with
  | some s =>
    rw [gridCellAt_eq_of_hit w h (canonicalIndex w h) supplied i s hl] at hgc
    subst hgc
    obtain ⟨hmem, _⟩ := lastHit_mem (canonicalIndex w h) supplied i s hl
    exact absurd rfl (hns s hmem)
  | none =>
    rw [gridCellAt_eq_of_miss w h (canonicalIndex w h) supplied i hl] at hgc
    rw [← hgc]
    exact ⟨rfl, rfl⟩

/-! ## Non-Tree extraction (the round-trip inverse of the overlay) -/

/-- Extract the cells that are not default Trees — the sparse content of a
dense field, the inverse direction of the reconstruction round-trip. -/
def nonTreeCells (cells : List Cell) : List Cell :=
  cells.filter (fun c => c.state != CellState.T)

theorem nonTree_mem_iff (w h : Int) (hw : 0 < w) (hh : 0 < h) (supplied : List Cell)
    (hbox : ∀ c ∈ supplied, inBox w h (c.x, c.y))
    (hstate : ∀ c ∈ supplied, c.state ≠ CellState.T) (c : Cell) :
    c ∈ nonTreeCells (reconstructDense w h supplied (canonicalIndex w h)) ↔
      lastWrite supplied (c.x, c.y) = some c := by
  constructor
  · intro hmemf
    obtain ⟨hmem, hcond⟩ := List.mem_filter.mp hmemf
    rw [reconstructDense_eq_map w h hw hh supplied (canonicalIndex w h)
      (canonical_hin w h hw hh supplied)] at hmem
    obtain ⟨i, hiR, hgc⟩ := List.mem_map.mp hmem
    have hi : i < gridN w h := List.mem_range.mp hiR
    cases hl : lastHit (canonicalIndex w h) supplied i with
    | none =>
      rw [gridCellAt_eq_of_miss w h (canonicalIndex w h) supplied i hl] at hgc
      rw [← hgc] at hcond
      simp [defaultTreeCell] at hcond
    | some s =>
      rw [gridCellAt_eq_of_hit w h (canonicalIndex w h) supplied i s hl] at hgc
      subst hgc
      obtain ⟨_, hk⟩ := lastHit_mem (canonicalIndex w h) supplied i s hl
      obtain ⟨hbx, hpos⟩ := canonicalIndex_eq_some w h (s.x, s.y) i hk
      have hco : coordOfIndex w h i = (s.x, s.y) := by
        rw [← hpos]
        exact coordOfIndex_canonicalPos w h hw hh _ hbx
      rw [lastHit_eq_lastWrite w h hw hh supplied hbox i hi, hco] at hl
      exact hl
  · intro hl
    obtain ⟨hmem, _⟩ := lastWrite_mem supplied (c.x, c.y) c hl
    have hbx : inBox w h (c.x, c.y) := hbox c hmem
    have hi : canonicalPos w h (c.x, c.y) < gridN w h := canonicalPos_lt w h hw hh _ hbx
    have hco : coordOfIndex w h (canonicalPos w h (c.x, c.y)) = (c.x, c.y) :=
      coordOfIndex_canonicalPos w h hw hh _ hbx
    have hlh : lastHit (canonicalIndex w h) supplied (canonicalPos w h (c.x, c.y)) = some c := by
      rw [lastHit_eq_lastWrite w h hw hh supplied hbox _ hi, hco]
      exact hl
    apply List.mem_filter.mpr
    constructor
    · rw [reconstructDense_eq_map w h hw hh supplied (canonicalIndex w h)
        (canonical_hin w h hw hh supplied)]
      apply List.mem_map.mpr
      exact ⟨canonicalPos w h (c.x, c.y), List.mem_range.mpr hi,
        gridCellAt_eq_of_hit w h (canonicalIndex w h) supplied _ c hlh⟩
    · have hst := hstate c hmem
      simp [hst]

theorem reconstructDense_eq_of_lastWrite_eq (w h : Int) (hw : 0 < w) (hh : 0 < h)
    (s1 s2 : List Cell)
    (hbox1 : ∀ c ∈ s1, inBox w h (c.x, c.y)) (hbox2 : ∀ c ∈ s2, inBox w h (c.x, c.y))
    (hlw : ∀ p, lastWrite s1 p = lastWrite s2 p) :
    reconstructDense w h s1 (canonicalIndex w h) =
      reconstructDense w h s2 (canonicalIndex w h) := by
  rw [reconstructDense_eq_map w h hw hh s1 (canonicalIndex w h) (canonical_hin w h hw hh s1),
    reconstructDense_eq_map w h hw hh s2 (canonicalIndex w h) (canonical_hin w h hw hh s2)]
  apply List.map_congr_left
  intro i hiR
  have hi : i < gridN w h := List.mem_range.mp hiR
  unfold gridCellAt
  rw [lastHit_eq_lastWrite w h hw hh s1 hbox1 i hi,
    lastHit_eq_lastWrite w h hw hh s2 hbox2 i hi, hlw (coordOfIndex w h i)]

/-! ## Dropped supplied cells and degenerate dimensions -/

theorem overlayStep_none (coordMap : CoordIndex) (acc : List Cell) (c : Cell)
    (hk : coordMap (c.x, c.y) = none) : overlayStep coordMap acc c = acc := by
  unfold overlayStep
  rw [hk]

theorem overlayCells_all_none (coordMap : CoordIndex) (base supplied : List Cell)
    (hnone : ∀ c ∈ supplied, coordMap (c.x, c.y) = none) :
    overlayCells coordMap base supplied = base := by
  induction supplied generalizing base with
  | nil => rfl
  | cons c rest ih =>
    show overlayCells coordMap (overlayStep coordMap base c) rest = base
    rw [overlayStep_none coordMap base c (hnone c (List.mem_cons_self c rest))]
    exact ih base (fun c2 hc2 => hnone c2 (List.mem_cons_of_mem c hc2))

theorem overlayCells_filter_isSome (coordMap : CoordIndex) (base supplied : List Cell) :
    overlayCells coordMap base supplied =
      overlayCells coordMap base
        (supplied.filter (fun c => (coordMap (c.x, c.y)).isSome)) := by
  induction supplied generalizing base with
  | nil => rfl
  | cons c rest ih =>
    show overlayCells coordMap (overlayStep coordMap base c) rest = _
    cases hk : coordMap (c.x, c.y) with
    | none =>
      rw [overlayStep_none coordMap base c hk]
      rw [List.filter_cons_of_neg (by rw [hk]; simp)]
      exact ih base
    | some j =>
      rw [List.filter_cons_of_pos (by rw [hk]; rfl)]
      show _ = overlayCells coordMap (overlayStep coordMap base c) (rest.filter _)
      exact ih (overlayStep coordMap base c)

theorem initialCells_of_nonpos (w h : Int) (hwh : w ≤ 0 ∨ h ≤ 0) : initialCells w h = [] := by
  have hlen : (initialCells w h).length = 0 := by
    rw [initialCells_length]
    have hW := axisLen_eq_toNat w
    have hH := axisLen_eq_toNat h
    rcases hwh with hw | hh2
    · have : axisLen w = 0 := by omega
      rw [this, Nat.mul_zero]
    · have : axisLen h = 0 := by omega
      rw [this, Nat.zero_mul]
  exact List.eq_nil_of_length_eq_zero hlen

theorem inBox_empty_of_nonpos (w h : Int) (hwh : w ≤ 0 ∨ h ≤ 0) (p : Int × Int) :
    ¬ inBox w h p := by
  intro hp
  obtain ⟨h1, h2, h3, h4⟩ := hp
  have hbw := boxHi_sub_boxLo w
  have hbh := boxHi_sub_boxLo h
  omega

theorem reconstructDense_canonical_of_nonpos (w h : Int) (supplied : List Cell)
    (hwh : w ≤ 0 ∨ h ≤ 0) :
    reconstructDense w h supplied (canonicalIndex w h) = [] := by
  unfold reconstructDense
  rw [overlayCells_all_none (canonicalIndex w h) (initialCells w h) supplied
    (fun c _ => canonicalIndex_out w h (c.x, c.y) (inBox_empty_of_nonpos w h hwh (c.x, c.y)))]
  exact initialCells_of_nonpos w h hwh

/-! ## Session registry and the route handlers

The module-level `sessions` Map keyed by session id. Only the keys matter to
the control flow verified here; the stored entry (field, params, coordMap,
abortController) rides along unchanged, and the abort flag of a session is
reflected in the `aborted` schedule its loop reads. -/

/-- The keys of the `sessions` Map. -/
abbrev Registry := List String

/-- `sessions.delete(sessionId)`: remove the key (Map keys are unique, so
removing the key is filtering it out). -/
def sessionsDelete (reg : Registry) (sessionId : String) : Registry :=
  reg.filter (fun k => k != sessionId)

/-- `sessions.has(sessionId)`. -/
def sessionsHas (reg : Registry) (sessionId : String) : Bool :=
  reg.contains sessionId

/-- Result of the DELETE handler. -/
inductive DeleteResult where
  | invalidSession
  | success
deriving DecidableEq, Repr

/-- The DELETE handler (route.ts lines 160-173): reject a missing id or an id
absent from the registry with a 400 `Invalid session ID`; otherwise abort the
session, delete its entry and answer `{ success: true }`. The secondary
`!session` re-check (404) is unreachable once `sessions.has` returned true,
the two lookups running back to back on one request. -/
def DELETE (reg : Registry) (sessionId : Option String) : DeleteResult × Registry :=
  match sessionId with
  | none => (.invalidSession, reg)
  | some sid =>
    if sessionsHas reg sid then (.success, sessionsDelete reg sid)
    else (.invalidSession, reg)

/-- Result of the GET handler itself (before any stream activity). -/
inductive GetResult where
  | invalidSession
  | streamAttached
deriving DecidableEq, Repr

/-- The GET handler up to returning the SSE response (route.ts lines 87-99 and
150-157): validate the id against the registry and hand back the stream.
Attaching does not modify the registry — the entry is removed later, by the
`finally` of the stream `start` callback or by its `cancel` callback. -/
def GET (reg : Registry) (sessionId : Option String) : GetResult × Registry :=
  match sessionId with
  | none => (.invalidSession, reg)
  | some sid =>
    if sessionsHas reg sid then (.streamAttached, reg)
    else (.invalidSession, reg)

/-- The sparse field sent by the client in the POST body. -/
structure SparseField where
  width : Int
  height : Int
  cells : List Cell

/-- Result of the POST handler. -/
inductive PostResult where
  | missingInput
  | created (sessionCells : List Cell)
deriving DecidableEq

/-- The POST handler (route.ts lines 20-84): presence check of the three body
parts (`Missing field or params`, 400), then dense reconstruction and storage
of a fresh session under `newId` (the uuid). There is no dimension or bounds
validation anywhere on this path. The `catch` arm (malformed JSON body, 500)
is outside the model. -/
def POST (reg : Registry) (newId : String) (field : Option SparseField)
    (params : Option ForestFireParams) (coords : Option CoordIndex) :
    PostResult × Registry :=
  match field, params, coords with
  | some f, some _, some m =>
    (.created (reconstructDense f.width f.height f.cells m), reg ++ [newId])
  | _, _, _ => (.missingInput, reg)

/-! ## The streaming loop

`route.ts` GET lines 101-148 (variant A, `break`), and the earlier variant of
the same route (`src/unnamed/part_000` lines 62-108, variant B, a
`simulationEnded` flag). The engine is a black box: each iteration consumes
the next element of `ticks`. Checkpoint `2*k` is the loop-head read of
`session.abortController.signal.aborted` in iteration `k`; checkpoint
`2*k + 1` is the read inside `send` after the `setTimeout` wait of that
iteration. -/

/-- One successful engine call: the entries of `result.updatedCellsMap`
and the size of `result.flammableCells`. -/
structure TickResult where
  updatedCellsMap : List ((Int × Int) × Cell)
  flammableCount : Nat
deriving DecidableEq, Repr

/-- One engine call: a result, or a thrown exception reaching the `catch` of
the loop. -/
inductive TickOutcome where
  | ok (r : TickResult)
  | err
deriving DecidableEq, Repr

/-- Events enqueued on the SSE stream: a `data:` frame carrying the
updated-cells map, or the `event: end` completion frame. -/
inductive SSEEvent where
  | delta (updatedCellsMap : List ((Int × Int) × Cell))
  | endEvent
deriving DecidableEq, Repr

/-- How the loop finished. -/
inductive ExitKind where
  | completedExit
  | cancelledExit
  | erroredExit
  | outOfTicks
deriving DecidableEq, Repr

/-- The frames one iteration hands to the transport through `send`: the body
runs `if (result.updatedCellsMap.size > 0) send(map)` and `send` itself drops
the frame when the abort signal is already set (the checkpoint `2*k + 1`
read). -/
def sendFrames (aborted : Nat → Bool) (k : Nat) (r : TickResult) : List SSEEvent :=
  if 0 < r.updatedCellsMap.length ∧ aborted (2 * k + 1) = false then
    [SSEEvent.delta r.updatedCellsMap]
  else []

/-- Variant A, the loop of `route.ts`:
`while (!aborted) { await wait; result = engine(); if (map.size > 0) send(map);
if (flammable.size === 0) { enqueue(end); break; } }`. Returns the emitted
events, the exit kind, and the number of engine invocations. -/
def runLoopA (aborted : Nat → Bool) : Nat → List TickOutcome →
    List SSEEvent × ExitKind × Nat
  | k, ticks =>
    if aborted (2 * k) then ([], .cancelledExit, 0)
    else
      match ticks with
      | [] => ([], .outOfTicks, 0)
      | .err :: _ => ([], .erroredExit, 1)
      | .ok r :: rest =>
        if r.flammableCount = 0 then
          (sendFrames aborted k r ++ [SSEEvent.endEvent], .completedExit, 1)
        else
          ((sendFrames aborted k r) ++ (runLoopA aborted (k + 1) rest).1,
            (runLoopA aborted (k + 1) rest).2.1,
            (runLoopA aborted (k + 1) rest).2.2 + 1)

/-- Variant B, the loop of the earlier route variant:
`while (!aborted && !simulationEnded) { ...same body...; if (flammable.size
=== 0) { enqueue(end); simulationEnded = true; } }` — after the end frame it
sets the flag and leaves through one more head check instead of breaking. -/
def runLoopB (aborted : Nat → Bool) : Nat → Bool → List TickOutcome →
    List SSEEvent × ExitKind × Nat
  | k, simulationEnded, ticks =>
    if aborted (2 * k) then ([], .cancelledExit, 0)
    else if simulationEnded then ([], .completedExit, 0)
    else
      match ticks with
      | [] => ([], .outOfTicks, 0)
      | .err :: _ => ([], .erroredExit, 1)
      | .ok r :: rest =>
        if r.flammableCount = 0 then
          ((sendFrames aborted k r) ++ [SSEEvent.endEvent] ++
              (runLoopB aborted (k + 1) true rest).1,
            (runLoopB aborted (k + 1) true rest).2.1,
            (runLoopB aborted (k + 1) true rest).2.2 + 1)
        else
          ((sendFrames aborted k r) ++ (runLoopB aborted (k + 1) false rest).1,
            (runLoopB aborted (k + 1) false rest).2.1,
            (runLoopB aborted (k + 1) false rest).2.2 + 1)

/-- The `try`/`catch`/`finally` of the `start` callback around the loop: run
the loop, then — on every exit (completion break, abort exit, caught engine
error, or exhaustion of the modelled engine results) — `finally` closes the
controller and deletes the session entry. -/
def streamStart (aborted : Nat → Bool) (ticks : List TickOutcome)
    (reg : Registry) (sessionId : String) : List SSEEvent × ExitKind × Registry :=
  let res := runLoopA aborted 0 ticks
  (res.1, res.2.1, sessionsDelete reg sessionId)

/-- The `cancel` callback of the ReadableStream (transport disconnect):
`session.abortController.abort(); sessions.delete(sessionId)`. -/
def streamCancelCallback (reg : Registry) (sessionId : String) : Registry :=
  sessionsDelete reg sessionId

/-! ## Registry facts -/

theorem sessionsHas_iff (reg : Registry) (sid : String) :
    sessionsHas reg sid = true ↔ sid ∈ reg := by
  unfold sessionsHas
  simp

theorem mem_sessionsDelete_iff (reg : Registry) (a sid : String) :
    a ∈ sessionsDelete reg sid ↔ a ∈ reg ∧ a ≠ sid := by
  unfold sessionsDelete
  rw [List.mem_filter]
  constructor
  · intro ⟨h1, h2⟩
    exact ⟨h1, by simpa using h2⟩
  · intro ⟨h1, h2⟩
    exact ⟨h1, by simpa using h2⟩

theorem not_mem_sessionsDelete_self (reg : Registry) (sid : String) :
    sid ∉ sessionsDelete reg sid := by
  intro hmem
  exact absurd rfl (mem_sessionsDelete_iff reg sid sid |>.mp hmem).2

theorem DELETE_mem (reg : Registry) (sid : String) (h : sid ∈ reg) :
    DELETE reg (some sid) = (DeleteResult.success, sessionsDelete reg sid) := by
  show (if sessionsHas reg sid = true then (DeleteResult.success, sessionsDelete reg sid)
    else (DeleteResult.invalidSession, reg)) = _
  rw [if_pos ((sessionsHas_iff reg sid).mpr h)]

theorem DELETE_not_mem (reg : Registry) (sid : String) (h : sid ∉ reg) :
    DELETE reg (some sid) = (DeleteResult.invalidSession, reg) := by
  show (if sessionsHas reg sid = true then (DeleteResult.success, sessionsDelete reg sid)
    else (DeleteResult.invalidSession, reg)) = _
  rw [if_neg (fun hc => h ((sessionsHas_iff reg sid).mp hc))]

theorem GET_mem (reg : Registry) (sid : String) (h : sid ∈ reg) :
    GET reg (some sid) = (GetResult.streamAttached, reg) := by
  show (if sessionsHas reg sid = true then (GetResult.streamAttached, reg)
    else (GetResult.invalidSession, reg)) = _
  rw [if_pos ((sessionsHas_iff reg sid).mpr h)]

theorem GET_not_mem (reg : Registry) (sid : String) (h : sid ∉ reg) :
    GET reg (some sid) = (GetResult.invalidSession, reg) := by
  show (if sessionsHas reg sid = true then (GetResult.streamAttached, reg)
    else (GetResult.invalidSession, reg)) = _
  rw [if_neg (fun hc => h ((sessionsHas_iff reg sid).mp hc))]

/-! ## Claim C1 — idempotence of cancel -/

/-- C1, counterexample. The claim states that a second cancel on a session id
whose first cancel succeeded is again a success. On the code it is not: the
first DELETE removes the entry, so the second DELETE on the same id takes the
`!sessions.has(sessionId)` branch and fails with the 400 `Invalid session ID`
answer — exactly the answer an id that was never created gets. Concrete run:
registry `["s"]`, the first `DELETE s` succeeds, the second fails. -/
theorem C1_counterexample :
    (DELETE ["s"] (some "s")).1 = DeleteResult.success ∧
    (DELETE (DELETE ["s"] (some "s")).2 (some "s")).1 = DeleteResult.invalidSession := by
  decide

/-- C1, amended claim: cancel on a live session id succeeds exactly once and
removes the entry; every later cancel on the same id fails with the same
`Invalid session ID` failure as an id that was never created, and cancel on an
id that was never created fails on every call. (The no-op-success idempotence
the claim describes is not implemented.) -/
theorem C1_amended (reg : Registry) (sid : String) :
    (sid ∈ reg →
      (DELETE reg (some sid)).1 = DeleteResult.success ∧
      (DELETE (DELETE reg (some sid)).2 (some sid)).1 = DeleteResult.invalidSession) ∧
    (sid ∉ reg →
      (DELETE reg (some sid)).1 = DeleteResult.invalidSession ∧
      (DELETE (DELETE reg (some sid)).2 (some sid)).1 = DeleteResult.invalidSession) := by
  constructor
  · intro hmem
    rw [DELETE_mem reg sid hmem]
    constructor
    · rfl
    · show (DELETE (sessionsDelete reg sid) (some sid)).1 = DeleteResult.invalidSession
      rw [DELETE_not_mem (sessionsDelete reg sid) sid (not_mem_sessionsDelete_self reg sid)]
  · intro hmem
    rw [DELETE_not_mem reg sid hmem]
    constructor
    · rfl
    · show (DELETE reg (some sid)).1 = DeleteResult.invalidSession
      rw [DELETE_not_mem reg sid hmem]

/-- C1 amended, witness at a concrete registry. -/
theorem C1_amended_witness :
    ((DELETE ["a"] (some "a")).1 = DeleteResult.success ∧
      (DELETE (DELETE ["a"] (some "a")).2 (some "a")).1 = DeleteResult.invalidSession) ∧
    ((DELETE ["a"] (some "b")).1 = DeleteResult.invalidSession ∧
      (DELETE (DELETE ["a"] (some "b")).2 (some "b")).1 = DeleteResult.invalidSession) :=
  ⟨(C1_amended ["a"] "a").1 (by decide), (C1_amended ["a"] "b").2 (by decide)⟩

/-! ## Claim C3 — one stream per session -/

/-- C3, counterexample. The claim states that after a first successful attach,
a second attach on the same id fails with `UnknownSession` even while the
first stream is still running. On the code the GET handler does not modify the
registry — the entry is removed only when the stream ends — so a second GET
issued while the first stream is still running succeeds and attaches a second
stream. Concrete run: registry `["s"]`, two consecutive GETs both attach. -/
theorem C3_counterexample :
    (GET ["s"] (some "s")).1 = GetResult.streamAttached ∧
    (GET (GET ["s"] (some "s")).2 (some "s")).1 = GetResult.streamAttached := by
  decide

/-- C3, amended claim: attaching does not consume the session entry, so a
second attach succeeds while the first stream is still running; the entry is
removed when the first stream ends (its `finally`), and only from that point
does a further attach on the same id fail with `Invalid session ID`. -/
theorem C3_amended (reg : Registry) (sid : String) (aborted : Nat → Bool)
    (ticks : List TickOutcome) (h : sid ∈ reg) :
    (GET reg (some sid)).1 = GetResult.streamAttached ∧
    (GET (GET reg (some sid)).2 (some sid)).1 = GetResult.streamAttached ∧
    (GET (streamStart aborted ticks (GET reg (some sid)).2 sid).2.2 (some sid)).1 =
      GetResult.invalidSession := by
  rw [GET_mem reg sid h]
  refine ⟨rfl, ?_, ?_⟩
  · show (GET reg (some sid)).1 = GetResult.streamAttached
    rw [GET_mem reg sid h]
  · show (GET (streamStart aborted ticks reg sid).2.2 (some sid)).1 =
      GetResult.invalidSession
    have hdel : (streamStart aborted ticks reg sid).2.2 = sessionsDelete reg sid := rfl
    rw [hdel, GET_not_mem (sessionsDelete reg sid) sid (not_mem_sessionsDelete_self reg sid)]

/-- C3 amended, witness at a concrete registry and stream. -/
theorem C3_amended_witness :
    (GET ["a"] (some "a")).1 = GetResult.streamAttached ∧
    (GET (GET ["a"] (some "a")).2 (some "a")).1 = GetResult.streamAttached ∧
    (GET (streamStart (fun _ => false) [] (GET ["a"] (some "a")).2 "a").2.2 (some "a")).1 =
      GetResult.invalidSession :=
  C3_amended ["a"] "a" (fun _ => false) [] (by decide)

/-! ## Claim C6 — unconditional registry release -/

/-- C6: on every way the stream of a session ends — natural completion,
cancellation observed by the loop, a caught engine error, or exhaustion of the
modelled engine results — the `finally` removes exactly that session entry
from the registry; the transport `cancel` callback and the DELETE handler
remove it as well; and an engine error terminates only that session loop,
immediately, with no event emitted by the erroring tick. -/
theorem C6_cleanup (aborted : Nat → Bool) (ticks : List TickOutcome)
    (reg : Registry) (sid : String) :
    (sid ∉ (streamStart aborted ticks reg sid).2.2) ∧
    (∀ k2, k2 ≠ sid → (k2 ∈ (streamStart aborted ticks reg sid).2.2 ↔ k2 ∈ reg)) ∧
    (sid ∉ streamCancelCallback reg sid) ∧
    (sid ∈ reg → sid ∉ (DELETE reg (some sid)).2) ∧
    (∀ rest, aborted 0 = false →
      runLoopA aborted 0 (TickOutcome.err :: rest) = ([], ExitKind.erroredExit, 1)) := by
  refine ⟨?_, ?_, ?_, ?_, ?_⟩
  · exact not_mem_sessionsDelete_self reg sid
  · intro k2 hk2
    show k2 ∈ sessionsDelete reg sid ↔ k2 ∈ reg
    rw [mem_sessionsDelete_iff]
    exact ⟨fun hh => hh.1, fun hh => ⟨hh, hk2⟩⟩
  · exact not_mem_sessionsDelete_self reg sid
  · intro hmem
    rw [DELETE_mem reg sid hmem]
    exact not_mem_sessionsDelete_self reg sid
  · intro rest hab
    show runLoopA aborted 0 (TickOutcome.err :: rest) = ([], ExitKind.erroredExit, 1)
    unfold runLoopA
    rw [if_neg (by rw [Nat.mul_zero, hab]; simp)]

/-- C6, witness at a concrete registry, schedule and tick list. -/
theorem C6_cleanup_witness :
    ("a" ∉ (streamStart (fun _ => false) [] ["a", "b"] "a").2.2) ∧
    ("b" ∈ (streamStart (fun _ => false) [] ["a", "b"] "a").2.2) ∧
    ("a" ∉ (DELETE ["a"] (some "a")).2) ∧
    runLoopA (fun _ => false) 0 [TickOutcome.err] = ([], ExitKind.erroredExit, 1) :=
  ⟨(C6_cleanup (fun _ => false) [] ["a", "b"] "a").1,
   ((C6_cleanup (fun _ => false) [] ["a", "b"] "a").2.1 "b" (by decide)).mpr (by decide),
   (C6_cleanup (fun _ => false) [] ["a"] "a").2.2.2.1 (by decide),
   (C6_cleanup (fun _ => false) [] ["a"] "a").2.2.2.2 [] rfl⟩

/-! ## Claim C2 — creation-time validation -/

/-- C2, counterexample. The claim states that creation fails with
`InvalidDimensions` when width or height is not positive, and that no session
is created. On the code POST performs no dimension validation at all: with
`width = 0, height = 0` the initialization loops simply run zero times, the
session is created (the registry grows by the fresh id) and the reply is the
normal `{ sessionId }` success. -/
theorem C2_counterexample :
    POST [] "s" (some { width := 0, height := 0, cells := [] })
      (some { updateInterval := 1 }) (some (fun _ => none)) =
      (PostResult.created [], ["s"]) := by
  rfl

/-- C2, amended claim: when field, params and coords are present, creation
always succeeds and stores a session — there is no `InvalidDimensions` and no
`OutOfBounds` failure path. When width or height is ≤ 0 the initialization
loops enumerate zero cells, and with the canonical coords mapping — which is
empty for a degenerate box, so every supplied cell key misses and nothing is
written — the created session holds a dense field with zero cells. A supplied
cell whose coordinate lies outside the bounding box has no key in the
canonical coords mapping, and such cells are silently dropped, leaving the
grid at its defaults. (Under an arbitrary client coords mapping the session
is still created without error; what the cells array then holds can involve
out-of-range JavaScript writes, which this model does not cover.) -/
theorem C2_amended (reg : Registry) (newId : String) (f : SparseField)
    (prm : ForestFireParams) (m : CoordIndex) :
    ((POST reg newId (some f) (some prm) (some m)).1 =
        PostResult.created (reconstructDense f.width f.height f.cells m) ∧
      (POST reg newId (some f) (some prm) (some m)).2 = reg ++ [newId]) ∧
    (f.width ≤ 0 ∨ f.height ≤ 0 → initialCells f.width f.height = []) ∧
    (f.width ≤ 0 ∨ f.height ≤ 0 →
      (POST reg newId (some f) (some prm)
          (some (canonicalIndex f.width f.height))).1 = PostResult.created []) ∧
    (∀ c : Cell, ¬ inBox f.width f.height (c.x, c.y) →
      canonicalIndex f.width f.height (c.x, c.y) = none) ∧
    (∀ supplied : List Cell, (∀ c ∈ supplied, ¬ inBox f.width f.height (c.x, c.y)) →
      reconstructDense f.width f.height supplied (canonicalIndex f.width f.height) =
        initialCells f.width f.height) := by
  refine ⟨⟨rfl, rfl⟩, ?_, ?_, ?_, ?_⟩
  · intro hwh
    exact initialCells_of_nonpos f.width f.height hwh
  · intro hwh
    show PostResult.created
        (reconstructDense f.width f.height f.cells (canonicalIndex f.width f.height)) =
      PostResult.created []
    rw [reconstructDense_canonical_of_nonpos f.width f.height f.cells hwh]
  · intro c hc
    exact canonicalIndex_out f.width f.height (c.x, c.y) hc
  · intro supplied hsup
    unfold reconstructDense
    exact overlayCells_all_none (canonicalIndex f.width f.height)
      (initialCells f.width f.height) supplied
      (fun c hc => canonicalIndex_out f.width f.height (c.x, c.y) (hsup c hc))

/-- C2 amended, witness at concrete inputs: a zero-width field enumerates no
cells and is created with an empty grid under the canonical coords, and an
out-of-box cell has no canonical key and is dropped. -/
theorem C2_amended_witness :
    initialCells 0 5 = [] ∧
    (POST [] "s" (some ⟨0, 5, []⟩) (some ⟨1⟩) (some (canonicalIndex 0 5))).1 =
      PostResult.created [] ∧
    canonicalIndex 3 3 (5, 5) = none ∧
    reconstructDense 3 3 [⟨5, 5, CellState.B, 0⟩] (canonicalIndex 3 3) =
      initialCells 3 3 :=
  ⟨(C2_amended [] "s" ⟨0, 5, []⟩ ⟨1⟩ (canonicalIndex 0 5)).2.1 (Or.inl (by decide)),
   (C2_amended [] "s" ⟨0, 5, []⟩ ⟨1⟩ (canonicalIndex 0 5)).2.2.1 (Or.inl (by decide)),
   (C2_amended [] "s" ⟨3, 3, []⟩ ⟨1⟩ (canonicalIndex 3 3)).2.2.2.1 ⟨5, 5, CellState.B, 0⟩
     (by decide),
   (C2_amended [] "s" ⟨3, 3, []⟩ ⟨1⟩ (canonicalIndex 3 3)).2.2.2.2 [⟨5, 5, CellState.B, 0⟩]
     (by decide)⟩

/-! ## Step equations of the two loops -/

theorem runLoopA_aborted (aborted : Nat → Bool) (k : Nat) (ticks : List TickOutcome)
    (hab : aborted (2 * k) = true) :
    runLoopA aborted k ticks = ([], ExitKind.cancelledExit, 0) := by
  unfold runLoopA
  rw [if_pos (by rw [hab])]

theorem runLoopA_nil (aborted : Nat → Bool) (k : Nat) (hab : aborted (2 * k) = false) :
    runLoopA aborted k [] = ([], ExitKind.outOfTicks, 0) := by
  unfold runLoopA
  rw [if_neg (by rw [hab]; simp)]

theorem runLoopA_err (aborted : Nat → Bool) (k : Nat) (rest : List TickOutcome)
    (hab : aborted (2 * k) = false) :
    runLoopA aborted k (TickOutcome.err :: rest) = ([], ExitKind.erroredExit, 1) := by
  unfold runLoopA
  rw [if_neg (by rw [hab]; simp)]

theorem runLoopA_ok_done (aborted : Nat → Bool) (k : Nat) (r : TickResult)
    (rest : List TickOutcome) (hab : aborted (2 * k) = false) (hf : r.flammableCount = 0) :
    runLoopA aborted k (TickOutcome.ok r :: rest) =
      (sendFrames aborted k r ++ [SSEEvent.endEvent], ExitKind.completedExit, 1) := by
  unfold runLoopA
  rw [if_neg (by rw [hab]; simp)]
  show (if r.flammableCount = 0 then _ else _) = _
  rw [if_pos hf]

theorem runLoopA_ok_cont (aborted : Nat → Bool) (k : Nat) (r : TickResult)
    (rest : List TickOutcome) (hab : aborted (2 * k) = false) (hf : r.flammableCount ≠ 0) :
    runLoopA aborted k (TickOutcome.ok r :: rest) =
      (sendFrames aborted k r ++ (runLoopA aborted (k + 1) rest).1,
        (runLoopA aborted (k + 1) rest).2.1,
        (runLoopA aborted (k + 1) rest).2.2 + 1) := by
  conv_lhs => rw [runLoopA]
  rw [if_neg (by rw [hab]; simp)]
  show (if r.flammableCount = 0 then _ else _) = _
  rw [if_neg hf]

theorem runLoopB_aborted (aborted : Nat → Bool) (k : Nat) (ended : Bool)
    (ticks : List TickOutcome) (hab : aborted (2 * k) = true) :
    runLoopB aborted k ended ticks = ([], ExitKind.cancelledExit, 0) := by
  unfold runLoopB
  rw [if_pos (by rw [hab])]

theorem runLoopB_ended (aborted : Nat → Bool) (k : Nat) (ticks : List TickOutcome)
    (hab : aborted (2 * k) = false) :
    runLoopB aborted k true ticks = ([], ExitKind.completedExit, 0) := by
  unfold runLoopB
  rw [if_neg (by rw [hab]; simp)]
  rfl

theorem runLoopB_nil (aborted : Nat → Bool) (k : Nat) (hab : aborted (2 * k) = false) :
    runLoopB aborted k false [] = ([], ExitKind.outOfTicks, 0) := by
  unfold runLoopB
  rw [if_neg (by rw [hab]; simp)]
  rfl

theorem runLoopB_err (aborted : Nat → Bool) (k : Nat) (rest : List TickOutcome)
    (hab : aborted (2 * k) = false) :
    runLoopB aborted k false (TickOutcome.err :: rest) = ([], ExitKind.erroredExit, 1) := by
  unfold runLoopB
  rw [if_neg (by rw [hab]; simp)]
  rfl

theorem runLoopB_ok_done (aborted : Nat → Bool) (k : Nat) (r : TickResult)
    (rest : List TickOutcome) (hab : aborted (2 * k) = false) (hf : r.flammableCount = 0) :
    runLoopB aborted k false (TickOutcome.ok r :: rest) =
      (sendFrames aborted k r ++ [SSEEvent.endEvent] ++
          (runLoopB aborted (k + 1) true rest).1,
        (runLoopB aborted (k + 1) true rest).2.1,
        (runLoopB aborted (k + 1) true rest).2.2 + 1) := by
  conv_lhs => rw [runLoopB]
  rw [if_neg (by rw [hab]; simp)]
  show (if r.flammableCount = 0 then _ else _) = _
  rw [if_pos hf]

theorem runLoopB_ok_cont (aborted : Nat → Bool) (k : Nat) (r : TickResult)
    (rest : List TickOutcome) (hab : aborted (2 * k) = false) (hf : r.flammableCount ≠ 0) :
    runLoopB aborted k false (TickOutcome.ok r :: rest) =
      (sendFrames aborted k r ++ (runLoopB aborted (k + 1) false rest).1,
        (runLoopB aborted (k + 1) false rest).2.1,
        (runLoopB aborted (k + 1) false rest).2.2 + 1) := by
  conv_lhs => rw [runLoopB]
  rw [if_neg (by rw [hab]; simp)]
  show (if r.flammableCount = 0 then _ else _) = _
  rw [if_neg hf]

theorem runLoopB_true_stops (aborted : Nat → Bool) (k : Nat) (ticks : List TickOutcome) :
    (runLoopB aborted k true ticks).1 = [] ∧ (runLoopB aborted k true ticks).2.2 = 0 := by
  cases hab : aborted (2 * k) with
  | true => rw [runLoopB_aborted aborted k true ticks hab]; exact ⟨rfl, rfl⟩
  | false => rw [runLoopB_ended aborted k ticks hab]; exact ⟨rfl, rfl⟩

/-! ## Facts about the send frames -/

theorem sendFrames_delta_ne_nil (aborted : Nat → Bool) (k : Nat) (r : TickResult)
    (pl : List ((Int × Int) × Cell)) (h : SSEEvent.delta pl ∈ sendFrames aborted k r) :
    pl ≠ [] := by
  unfold sendFrames at h
  by_cases hc : 0 < r.updatedCellsMap.length ∧ aborted (2 * k + 1) = false
  · rw [if_pos hc] at h
    have he : SSEEvent.delta pl = SSEEvent.delta r.updatedCellsMap := List.mem_singleton.mp h
    injection he with he2
    rw [he2]
    intro hnil
    rw [hnil] at hc
    simp at hc
  · rw [if_neg hc] at h
    exact absurd h (List.not_mem_nil _)

theorem sendFrames_no_end (aborted : Nat → Bool) (k : Nat) (r : TickResult) :
    SSEEvent.endEvent ∉ sendFrames aborted k r := by
  unfold sendFrames
  by_cases hc : 0 < r.updatedCellsMap.length ∧ aborted (2 * k + 1) = false
  · rw [if_pos hc]
    intro h
    have he := List.mem_singleton.mp h
    exact absurd he (by simp)
  · rw [if_neg hc]
    exact List.not_mem_nil _

theorem sendFrames_count_end (aborted : Nat → Bool) (k : Nat) (r : TickResult) :
    (sendFrames aborted k r).count SSEEvent.endEvent = 0 :=
  List.count_eq_zero.mpr (sendFrames_no_end aborted k r)

/-! ## Claim C4 — interruptibility of the per-tick wait -/

/-- C4, counterexample. The claim states the per-tick wait is interruptible:
cancellation firing during the wait stops the loop at once, with no further
engine work, so latency is never bounded below by the interval. In the code
the wait is a bare `setTimeout` promise with no abort wiring; the signal is
read only at the loop head and inside `send`. Schedule: clear at the head
check of iteration 0 (checkpoint 0), set during its wait (checkpoint 1). The
loop nevertheless finishes the wait and invokes the engine for that tick —
one engine invocation happens after cancellation fired, where the claim
requires zero. -/
theorem C4_counterexample :
    (fun t : Nat => decide (1 ≤ t)) 0 = false ∧
    (fun t : Nat => decide (1 ≤ t)) 1 = true ∧
    (runLoopA (fun t : Nat => decide (1 ≤ t)) 0 [TickOutcome.ok ⟨[], 5⟩]).2.2 = 1 := by
  decide

/-- C4, amended claim: cancellation is observed only at the loop-head check.
An abort already set at the head stops the loop immediately with nothing
emitted; an abort that fires after a head check has passed does not preempt
the wait — the engine still runs that tick (so cancellation latency is
bounded by the remaining wait, up to `updateIntervalSeconds`, plus one engine
call). -/
theorem C4_amended (aborted : Nat → Bool) (k : Nat) (ticks : List TickOutcome)
    (t : TickOutcome) :
    (aborted (2 * k) = true → runLoopA aborted k ticks = ([], ExitKind.cancelledExit, 0)) ∧
    (aborted (2 * k) = false → 1 ≤ (runLoopA aborted k (t :: ticks)).2.2) := by
  constructor
  · intro hab
    exact runLoopA_aborted aborted k ticks hab
  · intro hab
    cases t with
    | err =>
      rw [runLoopA_err aborted k ticks hab]
    | ok r =>
      by_cases hf : r.flammableCount = 0
      · rw [runLoopA_ok_done aborted k r ticks hab hf]
      · rw [runLoopA_ok_cont aborted k r ticks hab hf]
        show 1 ≤ (runLoopA aborted (k + 1) ticks).2.2 + 1
        omega

/-- C4 amended, witness: one schedule aborted from the start, one never
aborted. -/
theorem C4_amended_witness :
    runLoopA (fun _ => true) 0 [] = ([], ExitKind.cancelledExit, 0) ∧
    1 ≤ (runLoopA (fun _ => false) 0 [TickOutcome.ok ⟨[], 3⟩]).2.2 :=
  ⟨(C4_amended (fun _ => true) 0 [] TickOutcome.err).1 rfl,
   (C4_amended (fun _ => false) 0 [] (TickOutcome.ok ⟨[], 3⟩)).2 rfl⟩

/-! ## Claim C10 — equivalence of the two loop variants -/

/-- C10: the `break` loop of `route.ts` and the `simulationEnded`-flag loop of
the earlier variant emit the same event sequence and invoke the engine the
same number of times, for every sequence of engine results and every abort
schedule. (After the end frame, variant B merely takes one extra head check
with the flag set, which emits nothing and consumes no tick.) -/
theorem C10_loopEquiv (aborted : Nat → Bool) (k : Nat) (ticks : List TickOutcome) :
    (runLoopA aborted k ticks).1 = (runLoopB aborted k false ticks).1 ∧
    (runLoopA aborted k ticks).2.2 = (runLoopB aborted k false ticks).2.2 := by
  induction ticks generalizing k with
  | nil =>
    cases hab : aborted (2 * k) with
    | true =>
      rw [runLoopA_aborted aborted k [] hab, runLoopB_aborted aborted k false [] hab]
      exact ⟨rfl, rfl⟩
    | false =>
      rw [runLoopA_nil aborted k hab, runLoopB_nil aborted k hab]
      exact ⟨rfl, rfl⟩
  | cons t rest ih =>
    cases hab : aborted (2 * k) with
    | true =>
      rw [runLoopA_aborted aborted k (t :: rest) hab,
        runLoopB_aborted aborted k false (t :: rest) hab]
      exact ⟨rfl, rfl⟩
    | false =>
      cases t with
      | err =>
        rw [runLoopA_err aborted k rest hab, runLoopB_err aborted k rest hab]
        exact ⟨rfl, rfl⟩
      | ok r =>
        by_cases hf : r.flammableCount = 0
        · rw [runLoopA_ok_done aborted k r rest hab hf,
            runLoopB_ok_done aborted k r rest hab hf]
          obtain ⟨hev, hct⟩ := runLoopB_true_stops aborted (k + 1) rest
          constructor
          · show sendFrames aborted k r ++ [SSEEvent.endEvent] =
              sendFrames aborted k r ++ [SSEEvent.endEvent] ++
                (runLoopB aborted (k + 1) true rest).1
            rw [hev, List.append_nil]
          · show 1 = (runLoopB aborted (k + 1) true rest).2.2 + 1
            rw [hct]
        · rw [runLoopA_ok_cont aborted k r rest hab hf,
            runLoopB_ok_cont aborted k r rest hab hf]
          obtain ⟨hev, hct⟩ := ih (k + 1)
          constructor
          · show sendFrames aborted k r ++ (runLoopA aborted (k + 1) rest).1 =
              sendFrames aborted k r ++ (runLoopB aborted (k + 1) false rest).1
            rw [hev]
          · show (runLoopA aborted (k + 1) rest).2.2 + 1 =
              (runLoopB aborted (k + 1) false rest).2.2 + 1
            rw [hct]

/-! ## Claim C5 — event discipline of the stream -/

theorem trivialEventFacts (ex : ExitKind) (hex : ex ≠ ExitKind.completedExit) :
    (∀ pl, SSEEvent.delta pl ∈ ([] : List SSEEvent) → pl ≠ []) ∧
    (([] : List SSEEvent).count SSEEvent.endEvent ≤ 1) ∧
    (SSEEvent.endEvent ∈ ([] : List SSEEvent) →
      ([] : List SSEEvent).getLast? = some SSEEvent.endEvent) ∧
    (SSEEvent.endEvent ∈ ([] : List SSEEvent) ↔ ex = ExitKind.completedExit) := by
  refine ⟨?_, ?_, ?_, ?_⟩
  · intro pl hmem
    exact absurd hmem (List.not_mem_nil _)
  · simp
  · intro hmem
    exact absurd hmem (List.not_mem_nil _)
  · constructor
    · intro hmem
      exact absurd hmem (List.not_mem_nil _)
    · intro hx
      exact absurd hx hex

/-- C5, counterexample. The claim includes that the completion event is never
emitted on cancellation. Schedule: the abort fires during the wait of the
final tick (clear at checkpoint 0, set at checkpoint 1). `send` reads the
signal and drops the delta frame, but the `event: end` enqueue performs no
abort check, so the completion frame is still emitted on this cancelled
session — the run below produces exactly `[endEvent]` although the signal was
set before the frame was enqueued. -/
theorem C5_counterexample :
    (fun t : Nat => decide (1 ≤ t)) 0 = false ∧
    (fun t : Nat => decide (1 ≤ t)) 1 = true ∧
    runLoopA (fun t : Nat => decide (1 ≤ t)) 0
        [TickOutcome.ok ⟨[((0, 0), ⟨0, 0, CellState.E, 1⟩)], 0⟩] =
      ([SSEEvent.endEvent], ExitKind.completedExit, 1) := by
  decide

/-- C5, amended claim: every delta frame carries a non-empty updated-cells
map; the completion frame is emitted at most once, always last, and exactly
when the loop exits by frontier exhaustion; once cancellation is observed at
a loop-head check nothing further is emitted. The one divergence from the
original claim is that a completion frame can still be emitted after the
abort signal fires, when the signal fires during the wait of the tick that
empties the frontier (the end enqueue does not consult the signal). -/
theorem C5_amended (aborted : Nat → Bool) (k : Nat) (ticks : List TickOutcome) :
    (∀ pl, SSEEvent.delta pl ∈ (runLoopA aborted k ticks).1 → pl ≠ []) ∧
    ((runLoopA aborted k ticks).1.count SSEEvent.endEvent ≤ 1) ∧
    (SSEEvent.endEvent ∈ (runLoopA aborted k ticks).1 →
      (runLoopA aborted k ticks).1.getLast? = some SSEEvent.endEvent) ∧
    (SSEEvent.endEvent ∈ (runLoopA aborted k ticks).1 ↔
      (runLoopA aborted k ticks).2.1 = ExitKind.completedExit) ∧
    (aborted (2 * k) = true → (runLoopA aborted k ticks).1 = []) := by
  induction ticks generalizing k with
  | nil =>
    cases hab : aborted (2 * k) with
    | true =>
      rw [runLoopA_aborted aborted k [] hab]
      obtain ⟨t1, t2, t3, t4⟩ := trivialEventFacts ExitKind.cancelledExit (by decide)
      exact ⟨t1, t2, t3, t4, fun _ => rfl⟩
    | false =>
      rw [runLoopA_nil aborted k hab]
      obtain ⟨t1, t2, t3, t4⟩ := trivialEventFacts ExitKind.outOfTicks (by decide)
      exact ⟨t1, t2, t3, t4, fun hab2 => absurd hab2 (by decide)⟩
  | cons t rest ih =>
    cases hab : aborted (2 * k) with
    | true =>
      rw [runLoopA_aborted aborted k (t :: rest) hab]
      obtain ⟨t1, t2, t3, t4⟩ := trivialEventFacts ExitKind.cancelledExit (by decide)
      exact ⟨t1, t2, t3, t4, fun _ => rfl⟩
    | false =>
      cases t with
      | err =>
        rw [runLoopA_err aborted k rest hab]
        obtain ⟨t1, t2, t3, t4⟩ := trivialEventFacts ExitKind.erroredExit (by decide)
        exact ⟨t1, t2, t3, t4, fun hab2 => absurd hab2 (by decide)⟩
      | ok r =>
        by_cases hf : r.flammableCount = 0
        · rw [runLoopA_ok_done aborted k r rest hab hf]
          refine ⟨?_, ?_, ?_, ?_, ?_⟩
          · intro pl hmem
            rcases List.mem_append.mp hmem with h1 | h2
            · exact sendFrames_delta_ne_nil aborted k r pl h1
            · have := List.mem_singleton.mp h2
              exact absurd this (by simp)
          · show (sendFrames aborted k r ++ [SSEEvent.endEvent]).count SSEEvent.endEvent ≤ 1
            rw [List.count_append, sendFrames_count_end, Nat.zero_add]
            decide
          · intro _
            show (sendFrames aborted k r ++ [SSEEvent.endEvent]).getLast? =
              some SSEEvent.endEvent
            exact List.getLast?_concat _
          · constructor
            · intro _
              rfl
            · intro _
              exact List.mem_append_right _ (List.mem_singleton.mpr rfl)
          · intro hab2
            exact absurd hab2 (by decide)
        · rw [runLoopA_ok_cont aborted k r rest hab hf]
          obtain ⟨i1, i2, i3, i4, _⟩ := ih (k + 1)
          refine ⟨?_, ?_, ?_, ?_, ?_⟩
          · intro pl hmem
            rcases List.mem_append.mp hmem with h1 | h2
            · exact sendFrames_delta_ne_nil aborted k r pl h1
            · exact i1 pl h2
          · show (sendFrames aborted k r ++ (runLoopA aborted (k + 1) rest).1).count
              SSEEvent.endEvent ≤ 1
            rw [List.count_append, sendFrames_count_end, Nat.zero_add]
            exact i2
          · intro hmem
            rcases List.mem_append.mp hmem with h1 | h2
            · exact absurd h1 (sendFrames_no_end aborted k r)
            · show (sendFrames aborted k r ++ (runLoopA aborted (k + 1) rest).1).getLast? =
                some SSEEvent.endEvent
              rw [List.getLast?_append_of_ne_nil _ (List.ne_nil_of_mem h2)]
              exact i3 h2
          · constructor
            · intro hmem
              rcases List.mem_append.mp hmem with h1 | h2
              · exact absurd h1 (sendFrames_no_end aborted k r)
              · exact i4.mp h2
            · intro hex
              exact List.mem_append_right _ (i4.mpr hex)
          · intro hab2
            exact absurd hab2 (by decide)

/-- C5 amended, witness: a run that completes emits the end frame. -/
theorem C5_amended_witness :
    SSEEvent.endEvent ∈ (runLoopA (fun _ => false) 0 [TickOutcome.ok ⟨[], 0⟩]).1 :=
  (C5_amended (fun _ => false) 0 [TickOutcome.ok ⟨[], 0⟩]).2.2.2.1.mpr (by decide)

/-! ## Claim C7 — shape of the reconstructed dense field -/

/-- C7, counterexample. The claim asserts the box/once/default invariants of
the reconstructed field for every positive width and height, but the overlay
trusts the client `coords` mapping: a mapping that sends the key `0,0` to
position 0 stores that cell on top of the enumerated coordinate `(-1, -1)` of
a 2 by 2 grid, so the in-box coordinate `(-1, -1)` then appears zero times —
not exactly once as claimed. -/
theorem C7_counterexample :
    (0 : Int) < 2 ∧ inBox 2 2 (-1, -1) ∧
    (reconstructDense 2 2 [⟨0, 0, CellState.B, 0⟩]
        (fun p => if p = (0, 0) then some 0 else none)).countP
      (fun c => decide ((c.x, c.y) = ((-1 : Int), (-1 : Int)))) = 0 := by
  decide

/-- C7, amended claim: under the precondition that the supplied `coords`
mapping is the canonical row-major index of the box (the mapping the
enumeration loops realize, defined on exactly the box
`[-⌊w/2⌋, w-⌊w/2⌋) × [-⌊h/2⌋, h-⌊h/2⌋)`, odd sizes giving the extra unit to
the positive side), the reconstructed dense field has exactly
`width * height` cells, every box coordinate appears exactly once, and every
coordinate not carried by a supplied cell holds a Tree cell with
`burnTime = 0`. -/
theorem C7_amended (w h : Int) (hw : 0 < w) (hh : 0 < h) (supplied : List Cell) :
    (reconstructDense w h supplied (canonicalIndex w h)).length = w.toNat * h.toNat ∧
    (∀ p, inBox w h p →
      (reconstructDense w h supplied (canonicalIndex w h)).countP
        (fun c => decide ((c.x, c.y) = p)) = 1) ∧
    (∀ c ∈ reconstructDense w h supplied (canonicalIndex w h),
      (∀ s ∈ supplied, (s.x, s.y) ≠ (c.x, c.y)) →
        c.state = CellState.T ∧ c.burnTime = 0) := by
  refine ⟨?_, ?_, ?_⟩
  · rw [reconstructDense_length]
    unfold gridN
    rw [axisLen_eq_toNat, axisLen_eq_toNat]
    exact Nat.mul_comm _ _
  · intro p hp
    exact reconstructDense_coord_count w h hw hh supplied p hp
  · intro c hc hns
    exact reconstructDense_not_supplied w h hw hh supplied c hc hns

/-- C7 amended, witness on a 3 by 2 grid with one supplied Empty cell. -/
theorem C7_amended_witness :
    (reconstructDense 3 2 [⟨1, 0, CellState.E, 2⟩] (canonicalIndex 3 2)).length =
      (3 : Int).toNat * (2 : Int).toNat ∧
    (reconstructDense 3 2 [⟨1, 0, CellState.E, 2⟩] (canonicalIndex 3 2)).countP
      (fun c => decide ((c.x, c.y) = ((0 : Int), (0 : Int)))) = 1 ∧
    ((defaultTreeCell 0 0).state = CellState.T ∧ (defaultTreeCell 0 0).burnTime = 0) :=
  ⟨(C7_amended 3 2 (by decide) (by decide) [⟨1, 0, CellState.E, 2⟩]).1,
   (C7_amended 3 2 (by decide) (by decide) [⟨1, 0, CellState.E, 2⟩]).2.1 (0, 0) (by decide),
   (C7_amended 3 2 (by decide) (by decide) [⟨1, 0, CellState.E, 2⟩]).2.2 (defaultTreeCell 0 0)
     (by decide) (by decide)⟩

/-! ## Claim C8 — reconstruction round-trip -/

/-- C8, counterexample. The claim asserts the round-trip for every sparse
description whose supplied cells are in-bounds Burning/Empty overrides, but
the overlay consults only the client `coords` mapping: with an empty mapping
the in-bounds Burning override at `(0, 0)` is silently dropped, and
re-extracting the non-Tree cells yields the empty list, not the supplied
override. -/
theorem C8_counterexample :
    (∀ c ∈ ([⟨0, 0, CellState.B, 0⟩] : List Cell),
      inBox 2 2 (c.x, c.y) ∧ (c.state = CellState.B ∨ c.state = CellState.E)) ∧
    nonTreeCells (reconstructDense 2 2 [⟨0, 0, CellState.B, 0⟩] (fun _ => none)) = [] := by
  decide

/-- C8, amended claim: under the precondition that `coords` is the canonical
row-major index, for in-box non-Tree overrides the round-trip holds: the
dense field has `width * height` cells, a cell is extracted by the non-Tree
filter exactly when it is the last supplied override at its coordinate (last
write wins on duplicate coordinates), and the extraction depends only on that
last-write function — any two supplied lists with the same last writes, in
any order, extract identically. -/
theorem C8_amended (w h : Int) (hw : 0 < w) (hh : 0 < h) (supplied : List Cell)
    (hbox : ∀ c ∈ supplied, inBox w h (c.x, c.y))
    (hstate : ∀ c ∈ supplied, c.state ≠ CellState.T) :
    (reconstructDense w h supplied (canonicalIndex w h)).length = w.toNat * h.toNat ∧
    (∀ c, c ∈ nonTreeCells (reconstructDense w h supplied (canonicalIndex w h)) ↔
      lastWrite supplied (c.x, c.y) = some c) ∧
    (∀ supplied2, (∀ c ∈ supplied2, inBox w h (c.x, c.y)) →
      (∀ p, lastWrite supplied p = lastWrite supplied2 p) →
      nonTreeCells (reconstructDense w h supplied (canonicalIndex w h)) =
        nonTreeCells (reconstructDense w h supplied2 (canonicalIndex w h))) := by
  refine ⟨?_, ?_, ?_⟩
  · rw [reconstructDense_length]
    unfold gridN
    rw [axisLen_eq_toNat, axisLen_eq_toNat]
    exact Nat.mul_comm _ _
  · intro c
    exact nonTree_mem_iff w h hw hh supplied hbox hstate c
  · intro supplied2 hbox2 hlw
    unfold nonTreeCells
    rw [reconstructDense_eq_of_lastWrite_eq w h hw hh supplied supplied2 hbox hbox2 hlw]

/-- C8 amended, witness: three overrides with a duplicate coordinate; the
extraction keeps the later Empty write at `(0, 0)`, dropping the earlier
Burning one. -/
theorem C8_amended_witness :
    (⟨0, 0, CellState.E, 5⟩ : Cell) ∈ nonTreeCells (reconstructDense 2 2
      [⟨0, 0, CellState.B, 1⟩, ⟨-1, -1, CellState.E, 0⟩, ⟨0, 0, CellState.E, 5⟩]
      (canonicalIndex 2 2)) ∧
    (reconstructDense 2 2
      [⟨0, 0, CellState.B, 1⟩, ⟨-1, -1, CellState.E, 0⟩, ⟨0, 0, CellState.E, 5⟩]
      (canonicalIndex 2 2)).length = (2 : Int).toNat * (2 : Int).toNat :=
  ⟨((C8_amended 2 2 (by decide) (by decide)
      [⟨0, 0, CellState.B, 1⟩, ⟨-1, -1, CellState.E, 0⟩, ⟨0, 0, CellState.E, 5⟩]
      (by decide) (by decide)).2.1 ⟨0, 0, CellState.E, 5⟩).mpr (by decide),
   (C8_amended 2 2 (by decide) (by decide)
      [⟨0, 0, CellState.B, 1⟩, ⟨-1, -1, CellState.E, 0⟩, ⟨0, 0, CellState.E, 5⟩]
      (by decide) (by decide)).1⟩

/-! ## Claim C9 — trust in the client coords mapping -/

/-- C9: the reconstruction places each supplied cell wherever the
client-supplied `coords` mapping directs, with no consistency check against
the cell coordinate. Concretely: a supplied cell whose key is absent from
the mapping contributes nothing (the overlay equals the overlay of the
filtered list that keeps only cells with a present key); there exists a
mapping under which a stored cell sits at a position whose enumerated
coordinate differs from the cell coordinates and an in-box coordinate
appears twice, breaking the coordinate-to-position bijection; and under the
precondition that `coords` is exactly the canonical row-major mapping the
bijection holds — every box coordinate appears exactly once. -/
theorem C9_coordsTrust (w h : Int) :
    (∀ (coordMap : CoordIndex) (base supplied : List Cell),
      overlayCells coordMap base supplied =
        overlayCells coordMap base
          (supplied.filter (fun c => (coordMap (c.x, c.y)).isSome))) ∧
    (∃ (coordMap : CoordIndex) (supplied : List Cell) (i : Nat),
      i < gridN 2 2 ∧
      ((reconstructDense 2 2 supplied coordMap)[i]?.map (fun c => (c.x, c.y))) ≠
        some (coordOfIndex 2 2 i) ∧
      (reconstructDense 2 2 supplied coordMap).countP
        (fun c => decide ((c.x, c.y) = ((0 : Int), (0 : Int)))) = 2) ∧
    (0 < w → 0 < h → ∀ (supplied : List Cell) (p : Int × Int), inBox w h p →
      (reconstructDense w h supplied (canonicalIndex w h)).countP
        (fun c => decide ((c.x, c.y) = p)) = 1) := by
  refine ⟨?_, ?_, ?_⟩
  · intro coordMap base supplied
    exact overlayCells_filter_isSome coordMap base supplied
  · refine ⟨fun p => if p = (0, 0) then some 1 else none, [⟨0, 0, CellState.B, 0⟩], 1,
      by decide, by decide, by decide⟩
  · intro hw hh supplied p hp
    exact reconstructDense_coord_count w h hw hh supplied p hp

/-- C9, witness: the drop equation at a concrete out-of-box cell and the
canonical bijection on a concrete grid. -/
theorem C9_coordsTrust_witness :
    (overlayCells (canonicalIndex 2 2) [] [⟨5, 5, CellState.B, 0⟩] =
      overlayCells (canonicalIndex 2 2) []
        ([⟨5, 5, CellState.B, 0⟩].filter
          (fun c => ((canonicalIndex 2 2) (c.x, c.y)).isSome))) ∧
    (reconstructDense 2 2 [] (canonicalIndex 2 2)).countP
      (fun c => decide ((c.x, c.y) = ((0 : Int), (0 : Int)))) = 1 :=
  ⟨(C9_coordsTrust 2 2).1 (canonicalIndex 2 2) [] [⟨5, 5, CellState.B, 0⟩],
   (C9_coordsTrust 2 2).2.2 (by decide) (by decide) [] (0, 0) (by decide)⟩
